import Mathlib

/-!
Verification of the append-only ledger core of `client_mining_p/blockchain.py`:
block construction (`Blockchain.new_block`), canonical hashing
(`Blockchain.hash`, i.e. `json.dumps(block, sort_keys=True)` followed by
SHA-256), the proof-of-work predicate (`Blockchain.valid_proof`), the
pending-transaction pool (`Blockchain.new_transaction`), and the two mutating
HTTP route handlers (`/transaction/new` and `/mine`).

Machine integers do not appear in the Python source (Python integers are
unbounded), so `Nat`/`Int` model them directly.  The 32-bit words inside
SHA-256 are `Nat` values kept below `2 ^ 32` by explicit `% 4294967296`.

The nondeterministic `time()` call is modelled as an external input to each
state transition.  The model restricts the time oracle to whole-second
values (`Nat`), whose Python/JSON rendering is the float text `n.0`; every
claim under verification is insensitive to the timestamp's value.
-/

/-! ### SHA-256 over byte lists (faithful to hashlib.sha256) -/

/-- 32-bit truncation. -/
def m32 (x : Nat) : Nat := x % 4294967296

/-- 32-bit rotate right. -/
def rotr32 (x n : Nat) : Nat := m32 ((x >>> n) ||| (x <<< (32 - n)))

/-- Bitwise complement on a 32-bit word. -/
def not32 (x : Nat) : Nat := x ^^^ 4294967295

/-- The eight working variables of the SHA-256 compression function. -/
structure Sha8 where
  a : Nat
  b : Nat
  c : Nat
  d : Nat
  e : Nat
  f : Nat
  g : Nat
  h : Nat
deriving Repr, DecidableEq

/-- SHA-256 initial hash value (FIPS 180-4, in decimal). -/
def shaH0 : Sha8 :=
  ⟨1779033703, 3144134277, 1013904242, 2773480762,
   1359893119, 2600822924, 528734635, 1541459225⟩

/-- SHA-256 round constants (FIPS 180-4, in decimal). -/
def shaK : List Nat :=
  [1116352408, 1899447441, 3049323471, 3921009573, 961987163,
   1508970993, 2453635748, 2870763221, 3624381080, 310598401,
   607225278, 1426881987, 1925078388, 2162078206, 2614888103,
   3248222580, 3835390401, 4022224774, 264347078, 604807628,
   770255983, 1249150122, 1555081692, 1996064986, 2554220882,
   2821834349, 2952996808, 3210313671, 3336571891, 3584528711,
   113926993, 338241895, 666307205, 773529912, 1294757372,
   1396182291, 1695183700, 1986661051, 2177026350, 2456956037,
   2730485921, 2820302411, 3259730800, 3345764771, 3516065817,
   3600352804, 4094571909, 275423344, 430227734, 506948616,
   659060556, 883997877, 958139571, 1322822218, 1537002063,
   1747873779, 1955562222, 2024104815, 2227730452, 2361852424,
   2428436474, 2756734187, 3204031479, 3329325298]

/-- One round of the SHA-256 compression function. -/
def shaRound (st : Sha8) (kw : Nat × Nat) : Sha8 :=
  let S1 := (rotr32 st.e 6) ^^^ (rotr32 st.e 11) ^^^ (rotr32 st.e 25)
  let ch := (st.e &&& st.f) ^^^ ((not32 st.e) &&& st.g)
  let t1 := m32 (st.h + S1 + ch + kw.1 + kw.2)
  let S0 := (rotr32 st.a 2) ^^^ (rotr32 st.a 13) ^^^ (rotr32 st.a 22)
  let maj := (st.a &&& st.b) ^^^ (st.a &&& st.c) ^^^ (st.b &&& st.c)
  let t2 := m32 (S0 + maj)
  ⟨m32 (t1 + t2), st.a, st.b, st.c, m32 (st.d + t1), st.e, st.f, st.g⟩

/-- Extend 16 message-schedule words to 64 (`k` more words to produce). -/
def shaExtend (ws : List Nat) : Nat → List Nat
  | 0 => ws
  | k + 1 =>
    let n := ws.length
    let w15 := ws.getD (n - 15) 0
    let w2 := ws.getD (n - 2) 0
    let w16 := ws.getD (n - 16) 0
    let w7 := ws.getD (n - 7) 0
    let s0 := (rotr32 w15 7) ^^^ (rotr32 w15 18) ^^^ (w15 >>> 3)
    let s1 := (rotr32 w2 17) ^^^ (rotr32 w2 19) ^^^ (w2 >>> 10)
    shaExtend (ws ++ [m32 (w16 + s0 + w7 + s1)]) k

/-- Compress one 16-word block into the running hash value. -/
def shaCompress (H : Sha8) (blk : List Nat) : Sha8 :=
  let w := shaExtend blk 48
  let st := (shaK.zip w).foldl shaRound H
  ⟨m32 (H.a + st.a), m32 (H.b + st.b), m32 (H.c + st.c), m32 (H.d + st.d),
   m32 (H.e + st.e), m32 (H.f + st.f), m32 (H.g + st.g), m32 (H.h + st.h)⟩

/-- Big-endian 32-bit words from a byte list (length a multiple of 4). -/
def bytesToWords : List Nat → List Nat
  | b0 :: b1 :: b2 :: b3 :: rest =>
    (b0 * 16777216 + b1 * 65536 + b2 * 256 + b3) :: bytesToWords rest
  | _ => []

/-- Process the padded message, 16 words (one block) at a time. -/
def shaBlocks (H : Sha8) : List Nat → Sha8
  | w0 :: w1 :: w2 :: w3 :: w4 :: w5 :: w6 :: w7 ::
    w8 :: w9 :: w10 :: w11 :: w12 :: w13 :: w14 :: w15 :: rest =>
    shaBlocks (shaCompress H
      [w0, w1, w2, w3, w4, w5, w6, w7, w8, w9, w10, w11, w12, w13, w14, w15]) rest
  | _ => H

/-- Big-endian 8-byte encoding of the 64-bit bit length. -/
def lenBytes (bits : Nat) : List Nat :=
  [m32 (bits >>> 56) % 256, (bits >>> 48) % 256, (bits >>> 40) % 256,
   (bits >>> 32) % 256, (bits >>> 24) % 256, (bits >>> 16) % 256,
   (bits >>> 8) % 256, bits % 256]

/-- SHA-256 padding: `0x80`, zeros to 56 mod 64, then the 64-bit bit length. -/
def shaPad (msg : List Nat) : List Nat :=
  let L := msg.length
  let z := (119 - L % 64) % 64
  msg ++ [128] ++ List.replicate z 0 ++ lenBytes (8 * L)

/-- Lowercase hexadecimal digit. -/
def hexDigit (n : Nat) : Char :=
  if n < 10 then Char.ofNat (48 + n) else Char.ofNat (87 + n)

/-- Lowercase 8-hex-digit rendering of a 32-bit word. -/
def wordHex (w : Nat) : String :=
  String.mk [hexDigit ((w >>> 28) % 16), hexDigit ((w >>> 24) % 16),
             hexDigit ((w >>> 20) % 16), hexDigit ((w >>> 16) % 16),
             hexDigit ((w >>> 12) % 16), hexDigit ((w >>> 8) % 16),
             hexDigit ((w >>> 4) % 16), hexDigit (w % 16)]

/-- `hashlib.sha256(bytes).hexdigest()`: lowercase hex of the SHA-256 digest. -/
def sha256hex (msg : List Nat) : String :=
  let H := shaBlocks shaH0 (bytesToWords (shaPad msg))
  wordHex H.a ++ wordHex H.b ++ wordHex H.c ++ wordHex H.d ++
  wordHex H.e ++ wordHex H.f ++ wordHex H.g ++ wordHex H.h

/-- UTF-8 encoding of one character (Python `str.encode()`). -/
def utf8Char (c : Char) : List Nat :=
  let n := c.toNat
  if n < 128 then [n]
  else if n < 2048 then [192 + n / 64, 128 + n % 64]
  else if n < 65536 then [224 + n / 4096, 128 + (n / 64) % 64, 128 + n % 64]
  else [240 + n / 262144, 128 + (n / 4096) % 64, 128 + (n / 64) % 64, 128 + n % 64]

/-- UTF-8 encoding of a string (Python `str.encode()`). -/
def utf8Encode (s : String) : List Nat :=
  (s.data.map utf8Char).flatten

/-! ### The JSON fragment produced by `json.dumps(..., sort_keys=True)`

Python values that flow into blocks are modelled by `JV`.  Objects carry
their key/value pairs in insertion order, exactly as a Python `dict` does;
`dumps` sorts every object's keys, as `sort_keys=True` does.  The constructor
`JV.flt n` models the whole-second float `n.0` delivered by the time oracle
(its `repr`, hence its JSON text, is `n.0` for the moderate magnitudes a
Unix timestamp has). -/

mutual

inductive JV : Type where
  | null : JV
  | bool : Bool → JV
  | num : Int → JV
  | flt : Nat → JV
  | str : String → JV
  | arr : JList → JV
  | obj : JObj → JV

inductive JList : Type where
  | nil : JList
  | cons : JV → JList → JList

inductive JObj : Type where
  | nil : JObj
  | cons : String → JV → JObj → JObj

end

/-- View of an object's key/value pairs as a `List`. -/
def objToList : JObj → List (String × JV)
  | .nil => []
  | .cons k v t => (k, v) :: objToList t

/-- Build an object from a `List` of key/value pairs (insertion order kept). -/
def objOfList : List (String × JV) → JObj
  | [] => .nil
  | (k, v) :: t => .cons k v (objOfList t)

/-- Build a JSON array from a `List` of values. -/
def jlistOf : List JV → JList
  | [] => .nil
  | v :: t => .cons v (jlistOf t)

/-- Lowercase 4-hex-digit rendering, for `\uXXXX` escapes. -/
def hex4 (n : Nat) : String :=
  String.mk [hexDigit ((n >>> 12) % 16), hexDigit ((n >>> 8) % 16),
             hexDigit ((n >>> 4) % 16), hexDigit (n % 16)]

/-- JSON escape of one character, following Python `json.dumps` with its
default `ensure_ascii=True` (ASCII printables pass through; the rest become
two-character escapes or `\uXXXX`, with surrogate pairs beyond the BMP). -/
def escChar (c : Char) : String :=
  let n := c.toNat
  if c = '"' then "\\\""
  else if c = '\\' then "\\\\"
  else if n = 8 then "\\b"
  else if n = 9 then "\\t"
  else if n = 10 then "\\n"
  else if n = 12 then "\\f"
  else if n = 13 then "\\r"
  else if n < 32 ∨ 127 ≤ n then
    if n < 65536 then "\\u" ++ hex4 n
    else "\\u" ++ hex4 (55296 + (n - 65536) / 1024) ++ "\\u" ++ hex4 (56320 + (n - 65536) % 1024)
  else String.singleton c

/-- JSON rendering of a string literal. -/
def dumpStr (s : String) : String :=
  "\"" ++ String.join (s.data.map escChar) ++ "\""

/-- Strict lexicographic comparison of character lists by code point,
Python's `str.__lt__` (what `sorted` consults for `sort_keys=True`). -/
def strLtB : List Char → List Char → Bool
  | [], [] => false
  | [], _ :: _ => true
  | _ :: _, [] => false
  | a :: as, b :: bs =>
    if a.toNat < b.toNat then true
    else if b.toNat < a.toNat then false
    else strLtB as bs

theorem strLtB_irrefl : ∀ a, strLtB a a = false
  | [] => rfl
  | c :: cs => by simp [strLtB, strLtB_irrefl cs]

theorem strLtB_trans : ∀ a b c, strLtB a b = true → strLtB b c = true → strLtB a c = true
  | [], [], _, hab, _ => by cases hab
  | [], _ :: _, [], _, hbc => by cases hbc
  | [], _ :: _, _ :: _, _, _ => rfl
  | _ :: _, [], _, hab, _ => by cases hab
  | _ :: _, _ :: _, [], _, hbc => by cases hbc
  | a :: as, b :: bs, c :: cs, hab, hbc => by
    simp only [strLtB] at hab hbc ⊢
    by_cases h1 : a.toNat < b.toNat
    · by_cases h3 : b.toNat < c.toNat
      · simp [show a.toNat < c.toNat by omega]
      · by_cases h4 : c.toNat < b.toNat
        · simp [h3, h4] at hbc
        · simp [show a.toNat < c.toNat by omega]
    · by_cases h2 : b.toNat < a.toNat
      · simp [h1, h2] at hab
      · simp [h1, h2] at hab
        by_cases h3 : b.toNat < c.toNat
        · simp [show a.toNat < c.toNat by omega]
        · by_cases h4 : c.toNat < b.toNat
          · simp [h3, h4] at hbc
          · simp [h3, h4] at hbc
            have h5 : ¬ a.toNat < c.toNat := by omega
            have h6 : ¬ c.toNat < a.toNat := by omega
            simp only [h5, h6, if_false]
            exact strLtB_trans as bs cs hab hbc

theorem strLtB_eq_of_not_lt :
    ∀ a b, strLtB a b = false → strLtB b a = false → a = b
  | [], [], _, _ => rfl
  | [], _ :: _, hab, _ => by cases hab
  | _ :: _, [], _, hba => by cases hba
  | a :: as, b :: bs, hab, hba => by
    simp only [strLtB] at hab hba
    by_cases h1 : a.toNat < b.toNat
    · simp [h1] at hab
    · by_cases h2 : b.toNat < a.toNat
      · simp [h2] at hba
      · simp [h1, h2] at hab hba
        have hcn : a.toNat = b.toNat := by omega
        have hc : a = b := Char.eq_of_val_eq (UInt32.toNat.inj hcn)
        rw [hc, strLtB_eq_of_not_lt as bs hab hba]

theorem strLtB_asymm {a b : List Char} (h1 : strLtB a b = true) (h2 : strLtB b a = true) :
    False := by
  have := strLtB_trans a b a h1 h2
  rw [strLtB_irrefl] at this
  cases this

/-- Key order used by `sort_keys=True`: non-strict lexicographic order on
the key strings (Python compares `str` by code points). -/
def kvLE (a b : String × JV) : Prop := strLtB b.1.data a.1.data = false

/-- Strict key order, for uniqueness of the sorted form. -/
def kvLT (a b : String × JV) : Prop := strLtB a.1.data b.1.data = true

instance : DecidableRel kvLE := fun a b => instDecidableEqBool (strLtB b.1.data a.1.data) false

instance : IsTotal (String × JV) kvLE :=
  ⟨fun a b => by
    unfold kvLE
    rcases hab : strLtB b.1.data a.1.data with _ | _
    · exact Or.inl rfl
    · rcases hba : strLtB a.1.data b.1.data with _ | _
      · exact Or.inr rfl
      · exact absurd (strLtB_asymm hba hab) not_false⟩

instance : IsTrans (String × JV) kvLE :=
  ⟨fun a b c hab hbc => by
    unfold kvLE at hab hbc ⊢
    by_cases hca : strLtB c.1.data a.1.data = true
    · by_cases hbc2 : strLtB b.1.data c.1.data = true
      · exact absurd (strLtB_trans _ _ _ hbc2 hca) (by simp [hab])
      · have heq : b.1.data = c.1.data :=
          strLtB_eq_of_not_lt _ _ (by simpa using hbc2) hbc
        rw [← heq] at hca
        exact absurd hca (by simp [hab])
    · simpa using hca⟩

instance : IsAntisymm (String × JV) kvLT :=
  ⟨fun _ _ h1 h2 => absurd (strLtB_asymm h1 h2) not_false⟩

mutual

/-- Recursively sort every object's keys, as `sort_keys=True` does. -/
def sortJV : JV → JV
  | .null => .null
  | .bool b => .bool b
  | .num i => .num i
  | .flt n => .flt n
  | .str s => .str s
  | .arr xs => .arr (sortJList xs)
  | .obj kvs => .obj (objOfList (List.insertionSort kvLE (objToList (sortJObj kvs))))

/-- Sort every object's keys inside each element of an array. -/
def sortJList : JList → JList
  | .nil => .nil
  | .cons h t => .cons (sortJV h) (sortJList t)

/-- Sort every object's keys inside each value, keeping the binding order. -/
def sortJObj : JObj → JObj
  | .nil => .nil
  | .cons k v t => .cons k (sortJV v) (sortJObj t)

end

mutual

/-- Render a value whose objects are already key-sorted, with the default
`json.dumps` separators `", "` and `": "`. -/
def rdumpV : JV → String
  | .null => "null"
  | .bool b => if b then "true" else "false"
  | .num i => toString i
  | .flt n => toString n ++ ".0"
  | .str s => dumpStr s
  | .arr xs => "[" ++ rdumpList xs ++ "]"
  | .obj kvs => "\x7b" ++ rdumpObj kvs ++ "\x7d"

/-- Render array elements, `", "`-separated. -/
def rdumpList : JList → String
  | .nil => ""
  | .cons h .nil => rdumpV h
  | .cons h (.cons h2 t) => rdumpV h ++ ", " ++ rdumpList (.cons h2 t)

/-- Render object bindings, `", "`-separated. -/
def rdumpObj : JObj → String
  | .nil => ""
  | .cons k v .nil => dumpStr k ++ ": " ++ rdumpV v
  | .cons k v (.cons k2 v2 t) => dumpStr k ++ ": " ++ rdumpV v ++ ", " ++ rdumpObj (.cons k2 v2 t)

end

/-- `json.dumps(v, sort_keys=True)`. -/
def dumps (v : JV) : String := rdumpV (sortJV v)

/-! ### Data model of `blockchain.py`

A transaction dict is built by `Blockchain.new_transaction` from the three
values handed to it; the route passes whatever JSON the client sent, so the
fields are arbitrary `JV` values.  A block's `previous_hash` is the Python
int `1` for the genesis block and a hex digest string for mined blocks. -/

structure Tx where
  sender : JV
  recipient : JV
  amount : JV

/-- `previous_hash` field: the genesis sentinel is the Python int `1`;
mined blocks store a hex string. -/
inductive PH where
  | int : Int → PH
  | str : String → PH
deriving DecidableEq

/-- JSON value of a `previous_hash` field. -/
def PH.toJV : PH → JV
  | .int n => .num n
  | .str s => .str s

/-- Transaction dict in its Python insertion order
(`sender`, `recipient`, `amount`). -/
def Tx.toJV (t : Tx) : JV :=
  .obj (objOfList [("sender", t.sender), ("recipient", t.recipient), ("amount", t.amount)])

structure Block where
  index : Int
  timestamp : Nat
  transactions : List Tx
  proof : Int
  previous_hash : PH

/-- Block dict in its Python insertion order (`index`, `timestamp`,
`transactions`, `proof`, `previous_hash`), as built in `new_block`. -/
def Block.toJV (b : Block) : JV :=
  .obj (objOfList
    [("index", .num b.index),
     ("timestamp", .flt b.timestamp),
     ("transactions", .arr (jlistOf (b.transactions.map Tx.toJV))),
     ("proof", .num b.proof),
     ("previous_hash", b.previous_hash.toJV)])

/-- `json.dumps(block, sort_keys=True)` as performed in `Blockchain.hash`
and in the `mine` route. -/
def blockString (b : Block) : String := dumps b.toJV

/-- `hashlib.sha256(s.encode()).hexdigest()`. -/
def hashHex (s : String) : String := sha256hex (utf8Encode s)

/-- `Blockchain.hash(block)`: SHA-256 hex digest of the sorted-keys JSON
dump of the block. -/
def bcHash (b : Block) : String := hashHex (blockString b)

/-- `Blockchain.valid_proof(block_string, proof)`: the hex digest of
`f"{block_string}{proof}"` must start with six `'0'` characters. -/
def valid_proof (block_string : String) (proof : Int) : Bool :=
  let guess := block_string ++ toString proof
  let guess_hash := hashHex guess
  guess_hash.take 6 == "000000"

/-! ### Ledger state and operations -/

/-- The mutable state of a `Blockchain` object: `self.chain` and
`self.current_transactions`.  `new_block` rebinds
`self.current_transactions` to a fresh list (it does not mutate the list
captured inside the block), so a by-value functional state is an exact
model of the Python object's observable behaviour. -/
structure Chainstate where
  chain : List Block
  current_transactions : List Tx

/-- `Blockchain.new_block(proof, previous_hash)`; `ts` is the value the
`time()` oracle returns during the call.  Returns the new block and the
updated state. -/
def new_block (st : Chainstate) (ts : Nat) (proof : Int) (previous_hash : PH) :
    Block × Chainstate :=
  let block : Block :=
    { index := (st.chain.length : Int) + 1
      timestamp := ts
      transactions := st.current_transactions
      proof := proof
      previous_hash := previous_hash }
  (block, { chain := st.chain ++ [block], current_transactions := [] })

/-- `Blockchain.__init__`: empty chain and pool, then the genesis call
`new_block(previous_hash=1, proof=100)`. -/
def initState (ts0 : Nat) : Chainstate :=
  (new_block { chain := [], current_transactions := [] } ts0 100 (PH.int 1)).2

/-- `Blockchain.last_block` (`self.chain[-1]`); `none` models the
`IndexError` an empty chain would raise. -/
def last_block (st : Chainstate) : Option Block := st.chain.getLast?

/-- `Blockchain.new_transaction(sender, recipient, amount)`: append to the
pool, then return `last_block['index'] + 1` (`none` models the `IndexError`
on an empty chain, unreachable after construction). -/
def new_transaction (st : Chainstate) (sender recipient amount : JV) :
    Chainstate × Option Int :=
  let st' : Chainstate :=
    { st with current_transactions :=
        st.current_transactions ++ [{ sender := sender, recipient := recipient, amount := amount }] }
  (st', (last_block st').map (fun b => b.index + 1))

/-- Python truthiness of a JSON-decoded value, as tested by
`if data['id'] and data['proof']:`. -/
def truthy : JV → Bool
  | .null => false
  | .bool b => b
  | .num i => i != 0
  | .flt n => n != 0
  | .str s => s != ""
  | .arr xs => (xs matches JList.cons _ _)
  | .obj kvs => (kvs matches JObj.cons _ _ _)

/-! ### Route handlers (the externally reachable operations) -/

/-- Outcome of the `/transaction/new` route. -/
inductive TxRouteRes where
  | badRequest : TxRouteRes
  | created : Int → TxRouteRes
  | error : TxRouteRes
deriving DecidableEq

/-- The `/transaction/new` handler: rejects with `'Bad request'`/400 when a
required key is absent (`all(k in data for k in required)`), otherwise calls
`new_transaction` and answers 201 with the returned index.  `error` models
an uncaught exception (unreachable here once the chain is non-empty). -/
def new_transaction_route (st : Chainstate) (sender? recipient? amount? : Option JV) :
    TxRouteRes × Chainstate :=
  match sender?, recipient?, amount? with
  | some s, some r, some a =>
    let (st', idx?) := new_transaction st s r a
    match idx? with
    | some i => (.created i, st')
    | none => (.error, st')
  | _, _, _ => (.badRequest, st)

/-- Outcome of the `/mine` route.  `error` models an uncaught exception
(`KeyError` on a missing key, `IndexError` on an empty chain), which Flask
turns into a 500 response, not a `'Bad request'` one. -/
inductive MineRes where
  | error : MineRes
  | badRequest : MineRes
  | incorrectProof : MineRes
  | forged : Block → MineRes

/-- The `/mine` handler.  `data['id'] and data['proof']` evaluates
`data['id']` first (`KeyError` if absent); if it is falsy, `and`
short-circuits to the `'Bad request'` branch; otherwise `data['proof']` is
evaluated (`KeyError` if absent) and its truthiness decides the branch.  On
the truthy path the handler re-dumps the last block, checks `valid_proof`,
and either forges (`new_block` with the last block's hash, then the reward
`new_transaction("0", data['id'], 10)`) or answers `'Incorrect proof'`
leaving the state alone.  The route's JSON `proof` values are modelled at
the integer type the design gives them. -/
def mine_route (st : Chainstate) (ts : Nat) (id? : Option JV) (proof? : Option Int) :
    MineRes × Chainstate :=
  match id? with
  | none => (.error, st)
  | some idv =>
    if truthy idv then
      match proof? with
      | none => (.error, st)
      | some p =>
        if p != 0 then
          match last_block st with
          | none => (.error, st)
          | some last =>
            let block_string := blockString last
            if valid_proof block_string p then
              let hex_hash := hashHex block_string
              let (block, st1) := new_block st ts p (PH.str hex_hash)
              let (st2, _) := new_transaction st1 (JV.str "0") idv (JV.num 10)
              (.forged block, st2)
            else
              (.incorrectProof, st)
        else (.badRequest, st)
    else (.badRequest, st)

/-! ### Chain invariant and reachability -/

/-- The link between consecutive blocks: `previous_hash` is the canonical
hash of the predecessor and the index increases by one. -/
def linkOK (prev b : Block) : Bool :=
  (b.previous_hash == PH.str (bcHash prev)) && (b.index == prev.index + 1)

/-- Every adjacent pair in `prev :: rest` satisfies `linkOK`. -/
def chainLinked : Block → List Block → Bool
  | _, [] => true
  | prev, b :: rest => linkOK prev b && chainLinked b rest

/-- The genesis shape produced by `new_block(previous_hash=1, proof=100)`
on the empty chain. -/
def isGenesis (g : Block) : Bool :=
  (g.index == 1) && (g.proof == 100) && (g.previous_hash == PH.int 1)

/-- Chain invariant on the block list: non-empty, genesis head, and all
consecutive links intact. -/
def chainInvChain : List Block → Bool
  | [] => false
  | g :: rest => isGenesis g && chainLinked g rest

/-- Chain invariant of a ledger state. -/
def chainInvB (st : Chainstate) : Bool := chainInvChain st.chain

/-- Last block of `p :: l`. -/
def lastOf (p : Block) : List Block → Block
  | [] => p
  | b :: rest => lastOf b rest

/-- The block built on the valid-proof path of the `mine` route. -/
def minedBlock (st : Chainstate) (ts : Nat) (p : Int) (last : Block) : Block :=
  { index := (st.chain.length : Int) + 1
    timestamp := ts
    transactions := st.current_transactions
    proof := p
    previous_hash := PH.str (bcHash last) }

/-- The mining-reward transaction `new_transaction("0", data['id'], 10)`. -/
def rewardTx (idv : JV) : Tx :=
  { sender := JV.str "0", recipient := idv, amount := JV.num 10 }

/-- `ReachN n st`: `st` arises from some freshly constructed ledger by a
sequence of route calls among which exactly `n` mine calls forged a block. -/
inductive ReachN : Nat → Chainstate → Prop where
  | init (ts0 : Nat) : ReachN 0 (initState ts0)
  | tx {n : Nat} {st : Chainstate} (h : ReachN n st)
      (sender? recipient? amount? : Option JV) :
      ReachN n (new_transaction_route st sender? recipient? amount?).2
  | mineOk {n : Nat} {st : Chainstate} (h : ReachN n st)
      (ts : Nat) (id? : Option JV) (proof? : Option Int) {b : Block}
      (hres : (mine_route st ts id? proof?).1 = .forged b) :
      ReachN (n + 1) (mine_route st ts id? proof?).2
  | mineFail {n : Nat} {st : Chainstate} (h : ReachN n st)
      (ts : Nat) (id? : Option JV) (proof? : Option Int)
      (hres : ∀ b, (mine_route st ts id? proof?).1 ≠ .forged b) :
      ReachN n (mine_route st ts id? proof?).2

/-! ### Structural lemmas about the operations -/

theorem tx_route_chain (st : Chainstate) (s? r? a? : Option JV) :
    (new_transaction_route st s? r? a?).2.chain = st.chain := by
  rcases s? with _ | s <;> rcases r? with _ | r <;> rcases a? with _ | a <;>
    simp [new_transaction_route, new_transaction, last_block]
  rcases st.chain.getLast? with _ | b <;> rfl

/-- Complete case analysis of the `mine` route: either the state is
untouched and nothing was forged, or the proof was accepted and the result
is exactly a chain append plus the reward-only pool. -/
theorem mine_route_cases (st : Chainstate) (ts : Nat) (id? : Option JV) (p? : Option Int) :
    ((mine_route st ts id? p?).2 = st ∧ ∀ b, (mine_route st ts id? p?).1 ≠ .forged b) ∨
    (∃ idv p last, id? = some idv ∧ p? = some p ∧ last_block st = some last ∧
      valid_proof (blockString last) p = true ∧
      mine_route st ts id? p? =
        (.forged (minedBlock st ts p last),
         { chain := st.chain ++ [minedBlock st ts p last],
           current_transactions := [rewardTx idv] })) := by
  rcases id? with _ | idv
  · exact Or.inl ⟨rfl, fun b h => by cases h⟩
  · by_cases hid : truthy idv = true
    · rcases p? with _ | p
      · refine Or.inl ⟨?_, fun b h => ?_⟩
        · simp [mine_route, hid]
        · simp [mine_route, hid] at h
      · by_cases hp : (p != 0) = true
        · rcases hlast : last_block st with _ | last
          · refine Or.inl ⟨?_, fun b h => ?_⟩
            · simp [mine_route, hid, hp, hlast]
            · simp [mine_route, hid, hp, hlast] at h
          · by_cases hv : valid_proof (blockString last) p = true
            · refine Or.inr ⟨idv, p, last, rfl, rfl, rfl, hv, ?_⟩
              simp [mine_route, hid, hp, hlast, hv, new_block, new_transaction,
                minedBlock, rewardTx, bcHash]
            · refine Or.inl ⟨?_, fun b h => ?_⟩
              · simp [mine_route, hid, hp, hlast, hv]
              · simp [mine_route, hid, hp, hlast, hv] at h
        · refine Or.inl ⟨?_, fun b h => ?_⟩
          · simp [mine_route, hid, hp]
          · simp [mine_route, hid, hp] at h
    · refine Or.inl ⟨?_, fun b h => ?_⟩
      · simp [mine_route, hid]
      · simp [mine_route, hid] at h

theorem getLast?_eq_lastOf (g : Block) (rest : List Block) :
    (g :: rest).getLast? = some (lastOf g rest) := by
  induction rest generalizing g with
  | nil => rfl
  | cons b r ih => rw [List.getLast?_cons_cons, ih, lastOf]

theorem chainLinked_append (l : List Block) (p b : Block) :
    chainLinked p (l ++ [b]) = (chainLinked p l && linkOK (lastOf p l) b) := by
  induction l generalizing p with
  | nil => simp [chainLinked, lastOf]
  | cons q r ih => simp [chainLinked, lastOf, ih, Bool.and_assoc]

theorem lastOf_index (rest : List Block) (g : Block)
    (h : chainLinked g rest = true) :
    (lastOf g rest).index = g.index + rest.length := by
  induction rest generalizing g with
  | nil => simp [lastOf]
  | cons b r ih =>
    simp only [chainLinked, Bool.and_eq_true, linkOK, beq_iff_eq] at h
    obtain ⟨⟨_, hidx⟩, hrest⟩ := h
    rw [lastOf, ih b hrest, hidx]
    simp only [List.length_cons]
    push_cast
    ring

/-- Claim C1: in every reachable ledger state the chain starts with the
genesis block (index 1, proof 100, sentinel `previous_hash = 1`), every
later block stores the canonical hash of its predecessor as
`previous_hash` and increments the index by one, and after `N` successful
mine (seal) calls the chain holds `N + 1` blocks. -/
theorem C1_chain_invariant {n : Nat} {st : Chainstate} (h : ReachN n st) :
    chainInvB st = true ∧ st.chain.length = n + 1 := by
  induction h with
  | init ts0 =>
    refine ⟨?_, rfl⟩
    simp [chainInvB, initState, new_block, chainInvChain, isGenesis, chainLinked]
  | tx h s r a ih =>
    refine ⟨?_, ?_⟩
    · show chainInvChain _ = true
      rw [tx_route_chain]
      exact ih.1
    · rw [tx_route_chain]
      exact ih.2
  | mineOk h ts idq pq hres ih =>
    rename_i n st b
    rcases mine_route_cases st ts idq pq with ⟨_, hno⟩ | ⟨idv, p, last, hid, hp, hlast, hv, heq⟩
    · exact absurd hres (hno b)
    · rw [heq]
      have hinv := ih.1
      have hlen := ih.2
      rcases hc : st.chain with _ | ⟨g, rest⟩
      · rw [chainInvB, hc] at hinv
        cases hinv
      · rw [chainInvB, hc] at hinv
        simp only [chainInvChain, Bool.and_eq_true] at hinv
        obtain ⟨hg, hlink⟩ := hinv
        have hlastof : last = lastOf g rest := by
          have : last_block st = some (lastOf g rest) := by
            rw [last_block, hc, getLast?_eq_lastOf]
          rw [this] at hlast
          exact (Option.some.inj hlast).symm
        have hgidx : g.index = 1 := by
          simp only [isGenesis, Bool.and_eq_true, beq_iff_eq] at hg
          exact hg.1.1
        have hlastidx : last.index = 1 + rest.length := by
          rw [hlastof, lastOf_index rest g hlink, hgidx]
        rw [hc] at hlen
        constructor
        · show chainInvChain (g :: (rest ++ [minedBlock st ts p last])) = true
          simp only [chainInvChain, chainLinked_append, Bool.and_eq_true]
          refine ⟨hg, hlink, ?_⟩
          simp only [linkOK, Bool.and_eq_true, beq_iff_eq, minedBlock]
          rw [← hlastof]
          refine ⟨rfl, ?_⟩
          rw [hlastidx, hc]
          simp only [List.length_cons]
          push_cast
          ring
        · show (g :: (rest ++ [minedBlock st ts p last])).length = n + 1 + 1
          simp only [List.length_cons, List.length_append, List.length_nil] at hlen ⊢
          omega
  | mineFail h ts idq pq hres ih =>
    rename_i n st
    rcases mine_route_cases st ts idq pq with ⟨hst, _⟩ | ⟨idv, p, last, hid, hp, hlast, hv, heq⟩
    · rw [hst]
      exact ih
    · exact absurd (by rw [heq]) (hres (minedBlock st ts p last))

/-- Witness for C1 at the freshly constructed ledger. -/
theorem C1_chain_invariant_witness :
    chainInvB (initState 0) = true ∧ (initState 0).chain.length = 0 + 1 :=
  C1_chain_invariant (ReachN.init 0)

/-! ### Proof-of-work: claim C2 -/

/-- The genesis block as constructed with time-oracle value 0. -/
def genesisBlock : Block :=
  { index := 1, timestamp := 0, transactions := [], proof := 100, previous_hash := PH.int 1 }

theorem initState_chain : (initState 0).chain = [genesisBlock] := rfl

set_option maxRecDepth 1000000 in
/-- Claim C2: `valid_proof` accepts exactly the proofs whose SHA-256 digest
of the serialization concatenated with the decimal proof starts with six
`'0'` hex characters, and a nonce whose digest for the genesis serialization
has only five leading zeros is rejected. -/
theorem C2_valid_proof_spec :
    (∀ (s : String) (p : Int),
      valid_proof s p = true ↔ (hashHex (s ++ toString p)).take 6 = "000000") ∧
    (hashHex (blockString genesisBlock ++ toString (1039937 : Int))).take 5 = "00000" ∧
    valid_proof (blockString genesisBlock) 1039937 = false := by
  refine ⟨fun s p => ?_, ?_⟩
  · simp [valid_proof]
  · constructor
    · decide
    · decide

/-! ### Canonical hashing: claim C3 -/

theorem objToList_sort_ofList (l : List (String × JV)) :
    objToList (sortJObj (objOfList l)) = l.map (fun kv => (kv.1, sortJV kv.2)) := by
  induction l with
  | nil => rfl
  | cons kv t ih => cases kv; simp [objOfList, sortJObj, objToList, ih]

theorem sorted_strict {l : List (String × JV)} (hs : l.Sorted kvLE)
    (hn : (l.map Prod.fst).Nodup) : l.Sorted kvLT := by
  have hne : l.Pairwise (fun a b : String × JV => a.1 ≠ b.1) := by
    rw [List.Nodup, List.pairwise_map] at hn
    exact hn
  refine (hs.and hne).imp ?_
  rintro ⟨ka, va⟩ ⟨kb, vb⟩ ⟨hle, hkne⟩
  by_cases hlt : strLtB ka.data kb.data = true
  · exact hlt
  · exfalso
    have hdata : ka.data = kb.data :=
      strLtB_eq_of_not_lt _ _ (by simpa using hlt) hle
    obtain ⟨da⟩ := ka
    obtain ⟨db⟩ := kb
    have hd : da = db := hdata
    exact hkne (by rw [hd])

theorem insertionSort_perm_eq {l1 l2 : List (String × JV)} (hp : l1.Perm l2)
    (hn : (l1.map Prod.fst).Nodup) :
    List.insertionSort kvLE l1 = List.insertionSort kvLE l2 := by
  have hperm : (List.insertionSort kvLE l1).Perm (List.insertionSort kvLE l2) :=
    (List.perm_insertionSort kvLE l1).trans (hp.trans (List.perm_insertionSort kvLE l2).symm)
  have hs1 : (List.insertionSort kvLE l1).Sorted kvLE := List.sorted_insertionSort kvLE l1
  have hs2 : (List.insertionSort kvLE l2).Sorted kvLE := List.sorted_insertionSort kvLE l2
  have hn1 : ((List.insertionSort kvLE l1).map Prod.fst).Nodup :=
    (((List.perm_insertionSort kvLE l1).map Prod.fst).nodup_iff).mpr hn
  have hn2 : ((List.insertionSort kvLE l2).map Prod.fst).Nodup :=
    ((hperm.map Prod.fst).nodup_iff).mp hn1
  exact List.eq_of_perm_of_sorted hperm (sorted_strict hs1 hn1) (sorted_strict hs2 hn2)

theorem dumps_obj_perm {kvs1 kvs2 : List (String × JV)} (hp : kvs1.Perm kvs2)
    (hn : (kvs1.map Prod.fst).Nodup) :
    dumps (JV.obj (objOfList kvs1)) = dumps (JV.obj (objOfList kvs2)) := by
  show rdumpV (sortJV (JV.obj (objOfList kvs1))) = rdumpV (sortJV (JV.obj (objOfList kvs2)))
  rw [sortJV, sortJV, objToList_sort_ofList, objToList_sort_ofList]
  rw [insertionSort_perm_eq (hp.map _)
    (by rwa [List.map_map, show Prod.fst ∘ (fun kv : String × JV => (kv.1, sortJV kv.2)) = Prod.fst from rfl])]

/-- Claim C3: `Blockchain.hash` is the lowercase SHA-256 hex digest of the
sorted-keys JSON serialization; serializing the same bindings in any
insertion order yields identical bytes and an identical hash, and repeated
hashing of one block is constant. -/
theorem C3_canonical_hash :
    (∀ b : Block, bcHash b = sha256hex (utf8Encode (dumps b.toJV))) ∧
    (∀ kvs1 kvs2 : List (String × JV), kvs1.Perm kvs2 → (kvs1.map Prod.fst).Nodup →
      dumps (JV.obj (objOfList kvs1)) = dumps (JV.obj (objOfList kvs2)) ∧
      hashHex (dumps (JV.obj (objOfList kvs1))) = hashHex (dumps (JV.obj (objOfList kvs2)))) ∧
    (∀ b : Block, bcHash b = bcHash b) := by
  refine ⟨fun b => rfl, fun kvs1 kvs2 hp hn => ?_, fun b => rfl⟩
  have hd := dumps_obj_perm hp hn
  exact ⟨hd, by rw [hd]⟩

/-- Witness for C3 on a two-field object presented in both insertion
orders. -/
theorem C3_canonical_hash_witness :
    dumps (JV.obj (objOfList [("b", JV.num 2), ("a", JV.num 1)])) =
      dumps (JV.obj (objOfList [("a", JV.num 1), ("b", JV.num 2)])) ∧
    hashHex (dumps (JV.obj (objOfList [("b", JV.num 2), ("a", JV.num 1)]))) =
      hashHex (dumps (JV.obj (objOfList [("a", JV.num 1), ("b", JV.num 2)]))) :=
  C3_canonical_hash.2.1 _ _ (List.Perm.swap _ _ _) (by simp)

/-! ### Claims C4, C6, C9, C10 -/

/-- Claim C4: when the submitted proof fails `valid_proof`, the mine call
reports the incorrect-proof outcome and the state — chain and pool — is
exactly the state before the call. -/
theorem C4_invalid_proof_no_mutation (st : Chainstate) (ts : Nat) (idv : JV) (p : Int)
    (hid : truthy idv = true) (hp : p ≠ 0) (last : Block)
    (hlast : last_block st = some last)
    (hv : valid_proof (blockString last) p = false) :
    mine_route st ts (some idv) (some p) = (.incorrectProof, st) := by
  have hp' : (p != 0) = true := by simpa using hp
  simp [mine_route, hid, hp', hlast, hv]

set_option maxRecDepth 1000000 in
/-- Witness for C4: proof 1 is rejected against the genesis block and the
state survives untouched. -/
theorem C4_invalid_proof_no_mutation_witness :
    valid_proof (blockString genesisBlock) 1 = false ∧
    mine_route (initState 0) 5 (some (JV.str "miner")) (some 1) =
      (.incorrectProof, initState 0) :=
  ⟨by decide,
   C4_invalid_proof_no_mutation (initState 0) 5 (JV.str "miner") 1 (by decide)
     (by decide) genesisBlock rfl (by decide)⟩

/-- Claim C6: under the chain invariant, `new_transaction` appends exactly
one transaction at the end of the pool, leaves the chain unchanged, and
returns the current chain length plus one. -/
theorem C6_new_transaction (st : Chainstate) (hinv : chainInvB st = true) (s r a : JV) :
    new_transaction st s r a =
      ({ chain := st.chain,
         current_transactions :=
           st.current_transactions ++ [{ sender := s, recipient := r, amount := a }] },
       some ((st.chain.length : Int) + 1)) := by
  rcases hc : st.chain with _ | ⟨g, rest⟩
  · rw [chainInvB, hc] at hinv
    cases hinv
  · rw [chainInvB, hc] at hinv
    simp only [chainInvChain, Bool.and_eq_true] at hinv
    obtain ⟨hg, hlink⟩ := hinv
    have hgidx : g.index = 1 := by
      simp only [isGenesis, Bool.and_eq_true, beq_iff_eq] at hg
      exact hg.1.1
    have hidx : (lastOf g rest).index = 1 + rest.length := by
      rw [lastOf_index rest g hlink, hgidx]
    unfold new_transaction last_block
    simp only [hc, getLast?_eq_lastOf, Option.map_some', hidx]
    refine congrArg₂ Prod.mk rfl ?_
    congr 1
    simp only [List.length_cons]
    push_cast
    ring

/-- Witness for C6 on the fresh ledger: the returned index is the chain
length 1 plus 1. -/
theorem C6_new_transaction_witness :
    new_transaction (initState 0) (JV.str "A") (JV.str "B") (JV.num 5) =
      ({ chain := (initState 0).chain,
         current_transactions :=
           (initState 0).current_transactions ++
             [{ sender := JV.str "A", recipient := JV.str "B", amount := JV.num 5 }] },
       some (((initState 0).chain.length : Int) + 1)) :=
  C6_new_transaction (initState 0) (by decide) (JV.str "A") (JV.str "B") (JV.num 5)

/-- Claim C9: no operation rewrites an already-appended block — after any
route call or pool append, the original chain is exactly the prefix of the
new chain, so every sealed block (its transaction list included) is intact. -/
theorem C9_sealed_blocks_immutable (st : Chainstate) :
    (∀ s? r? a? : Option JV,
      (new_transaction_route st s? r? a?).2.chain.take st.chain.length = st.chain) ∧
    (∀ s r a : JV, (new_transaction st s r a).1.chain.take st.chain.length = st.chain) ∧
    (∀ (ts : Nat) (id? : Option JV) (p? : Option Int),
      (mine_route st ts id? p?).2.chain.take st.chain.length = st.chain) := by
  refine ⟨fun s? r? a? => ?_, fun s r a => ?_, fun ts id? p? => ?_⟩
  · rw [tx_route_chain]
    exact List.take_length _
  · show st.chain.take st.chain.length = st.chain
    exact List.take_length _
  · rcases mine_route_cases st ts id? p? with ⟨hst, _⟩ | ⟨idv, p, last, _, _, _, _, heq⟩
    · rw [hst]
      exact List.take_length _
    · rw [heq]
      show (st.chain ++ [minedBlock st ts p last]).take st.chain.length = st.chain
      exact List.take_left _ _

/-- Claim C10: after every successful mine the pool holds exactly the
reward transaction `{sender "0", recipient minerId, amount 10}`. -/
theorem C10_reward_in_pool (st : Chainstate) (ts : Nat) (idv : JV) (p? : Option Int)
    (b : Block) (hres : (mine_route st ts (some idv) p?).1 = .forged b) :
    (mine_route st ts (some idv) p?).2.current_transactions = [rewardTx idv] := by
  rcases mine_route_cases st ts (some idv) p? with ⟨_, hno⟩ | ⟨idv', p, last, hid, hp, hlast, hv, heq⟩
  · exact absurd hres (hno b)
  · cases Option.some.inj hid
    rw [heq]

set_option maxRecDepth 1000000 in
set_option maxHeartbeats 2000000 in
/-- Witness for C10: the successful mine with the brute-forced nonce
66476321 leaves exactly the miner's reward in the pool. -/
theorem C10_reward_in_pool_witness :
    (mine_route (initState 0) 7 (some (JV.str "miner")) (some 66476321)).2.current_transactions =
      [rewardTx (JV.str "miner")] :=
  C10_reward_in_pool (initState 0) 7 (JV.str "miner") (some 66476321)
    (minedBlock (initState 0) 7 66476321 genesisBlock) (by rfl)

/-! ### Claims C5, C7, C8 -/

/-- Claim C5 (amended): from a state with an empty pool, three
`new_transaction` calls followed by a mine with a valid proof yield a new
block holding exactly those three transactions in arrival order — but the
pool afterwards holds exactly the mining-reward transaction, not nothing,
because the route queues `new_transaction("0", data['id'], 10)` right after
sealing. -/
theorem C5_pool_lifecycle_amended (st : Chainstate) (ts : Nat)
    (hpool : st.current_transactions = [])
    (last : Block) (hlast : last_block st = some last)
    (s1 r1 a1 s2 r2 a2 s3 r3 a3 idv : JV) (p : Int)
    (hid : truthy idv = true) (hp : p ≠ 0)
    (hv : valid_proof (blockString last) p = true) :
    mine_route
      (new_transaction
        (new_transaction (new_transaction st s1 r1 a1).1 s2 r2 a2).1 s3 r3 a3).1
      ts (some idv) (some p) =
      (.forged
        { index := (st.chain.length : Int) + 1, timestamp := ts,
          transactions := [⟨s1, r1, a1⟩, ⟨s2, r2, a2⟩, ⟨s3, r3, a3⟩],
          proof := p, previous_hash := PH.str (bcHash last) },
       { chain := st.chain ++
           [{ index := (st.chain.length : Int) + 1, timestamp := ts,
              transactions := [⟨s1, r1, a1⟩, ⟨s2, r2, a2⟩, ⟨s3, r3, a3⟩],
              proof := p, previous_hash := PH.str (bcHash last) }],
         current_transactions := [rewardTx idv] }) := by
  have hp' : (p != 0) = true := by simpa using hp
  have hl : st.chain.getLast? = some last := hlast
  simp [mine_route, last_block, hid, hp', hl, hv, new_block, new_transaction,
    rewardTx, bcHash, hpool]

set_option maxRecDepth 1000000 in
set_option maxHeartbeats 4000000 in
/-- Counterexample to C5 as stated: in the very scenario the claim
describes (empty pool, three submitted transactions, then a mine with a
valid proof) the pending pool afterwards is NOT empty — it contains the
mining reward. -/
theorem C5_pool_not_empty_counterexample :
    (initState 0).current_transactions = [] ∧
    valid_proof (blockString genesisBlock) 66476321 = true ∧
    (mine_route
        (new_transaction
          (new_transaction
            (new_transaction (initState 0) (JV.str "A") (JV.str "B") (JV.num 5)).1
            (JV.str "C") (JV.str "D") (JV.num 6)).1
          (JV.str "E") (JV.str "F") (JV.num 7)).1
        9 (some (JV.str "miner")) (some 66476321)).2.current_transactions ≠ [] := by
  refine ⟨rfl, by decide, ?_⟩
  have he : (mine_route
        (new_transaction
          (new_transaction
            (new_transaction (initState 0) (JV.str "A") (JV.str "B") (JV.num 5)).1
            (JV.str "C") (JV.str "D") (JV.num 6)).1
          (JV.str "E") (JV.str "F") (JV.num 7)).1
        9 (some (JV.str "miner")) (some 66476321)).2.current_transactions =
      [rewardTx (JV.str "miner")] := by rfl
  rw [he]
  exact List.cons_ne_nil _ _

set_option maxRecDepth 1000000 in
set_option maxHeartbeats 4000000 in
/-- Witness for the amended C5 in the same concrete scenario. -/
theorem C5_pool_lifecycle_amended_witness :
    mine_route
      (new_transaction
        (new_transaction
          (new_transaction (initState 0) (JV.str "A") (JV.str "B") (JV.num 5)).1
          (JV.str "C") (JV.str "D") (JV.num 6)).1
        (JV.str "E") (JV.str "F") (JV.num 7)).1
      9 (some (JV.str "miner")) (some 66476321) =
      (.forged
        { index := ((initState 0).chain.length : Int) + 1, timestamp := 9,
          transactions := [⟨JV.str "A", JV.str "B", JV.num 5⟩,
            ⟨JV.str "C", JV.str "D", JV.num 6⟩, ⟨JV.str "E", JV.str "F", JV.num 7⟩],
          proof := 66476321, previous_hash := PH.str (bcHash genesisBlock) },
       { chain := (initState 0).chain ++
           [{ index := ((initState 0).chain.length : Int) + 1, timestamp := 9,
              transactions := [⟨JV.str "A", JV.str "B", JV.num 5⟩,
                ⟨JV.str "C", JV.str "D", JV.num 6⟩, ⟨JV.str "E", JV.str "F", JV.num 7⟩],
              proof := 66476321, previous_hash := PH.str (bcHash genesisBlock) }],
         current_transactions := [rewardTx (JV.str "miner")] }) :=
  C5_pool_lifecycle_amended (initState 0) 9 rfl genesisBlock rfl
    (JV.str "A") (JV.str "B") (JV.num 5) (JV.str "C") (JV.str "D") (JV.num 6)
    (JV.str "E") (JV.str "F") (JV.num 7) (JV.str "miner") 66476321
    (by decide) (by decide) (by decide)

/-- Counterexample to C7 as stated: a submission whose `sender` field is a
number (wrong type) is accepted — the route answers "created, index 2" and
appends the transaction, instead of failing without mutation. -/
theorem C7_wrong_type_accepted_counterexample :
    (new_transaction_route (initState 0) (some (JV.num 7)) (some (JV.str "B"))
        (some (JV.num 5))).1 = .created 2 ∧
    (new_transaction_route (initState 0) (some (JV.num 7)) (some (JV.str "B"))
        (some (JV.num 5))).2.current_transactions =
      [{ sender := JV.num 7, recipient := JV.str "B", amount := JV.num 5 }] :=
  ⟨rfl, rfl⟩

/-- Claim C7 (amended): the `/transaction/new` route validates only the
PRESENCE of the three fields — a missing field yields a bad-request
response with no state mutation, while any present values, whatever their
types, are accepted and appended to the pool. -/
theorem C7_presence_validation_amended (st : Chainstate) :
    (∀ s? r? a? : Option JV, (s? = none ∨ r? = none ∨ a? = none) →
      new_transaction_route st s? r? a? = (.badRequest, st)) ∧
    (∀ s r a : JV,
      (new_transaction_route st (some s) (some r) (some a)).2.current_transactions =
        st.current_transactions ++ [{ sender := s, recipient := r, amount := a }]) := by
  constructor
  · rintro s? r? a? hmiss
    rcases s? with _ | s <;> rcases r? with _ | r <;> rcases a? with _ | a <;>
      first
        | rfl
        | (rcases hmiss with h | h | h <;> cases h)
  · intro s r a
    simp only [new_transaction_route, new_transaction, last_block]
    rcases h : st.chain.getLast? with _ | b <;> simp [h]

/-- Witness for the amended C7: a missing sender is rejected without
mutation, and present fields are appended. -/
theorem C7_presence_validation_amended_witness :
    new_transaction_route (initState 0) none (some (JV.str "B")) (some (JV.num 5)) =
      (.badRequest, initState 0) ∧
    (new_transaction_route (initState 0) (some (JV.str "A")) (some (JV.str "B"))
        (some (JV.num 5))).2.current_transactions =
      (initState 0).current_transactions ++
        [{ sender := JV.str "A", recipient := JV.str "B", amount := JV.num 5 }] :=
  ⟨(C7_presence_validation_amended (initState 0)).1 none (some (JV.str "B"))
      (some (JV.num 5)) (Or.inl rfl),
   (C7_presence_validation_amended (initState 0)).2 (JV.str "A") (JV.str "B") (JV.num 5)⟩

/-- Claim C8: contrary to the claim, a mine submission missing the miner-id
field (or the proof field) makes `data['id']`/`data['proof']` raise an
uncaught `KeyError` (here `MineRes.error`, a 500 response), not the
`'Bad request'` outcome; and a PRESENT but falsy proof (0) is answered with
`'Bad request'` instead of being validated. -/
theorem C8_missing_field_raises :
    mine_route (initState 0) 7 none (some 1) = (.error, initState 0) ∧
    mine_route (initState 0) 7 (some (JV.str "miner")) none = (.error, initState 0) ∧
    mine_route (initState 0) 7 (some (JV.str "miner")) (some 0) =
      (.badRequest, initState 0) :=
  ⟨rfl, rfl, rfl⟩
